import Mathlib

/-!
Verification of the chess game-session engine (daydreams repository).

Shallow embedding of the TypeScript sources:
  * packages/core/src/core/processors/chess-processor.ts (two variants of
    ChessProcessor, separated in the source file; we call them V1 and V2),
  * examples/chess-ai-match.ts (playMatch move-selection step,
    isRepetitiveMove, calculateMaterial),
  * the WebSocket gateway (wss.on connection message handler),
  * clients/chess-ui/src/components/chess-ui.tsx (handleCommand).

External collaborators (chess.js board oracle, the LLM completion call,
JSON parsing of completion text) are parameters of the embedded functions:
the oracle is a function from FEN to data, the completion outcome and the
parse of its text are arbitrary values the theorems quantify over.
-/

/-! ## ChessProcessor (packages/core/src/core/processors/chess-processor.ts) -/

/-- Payload of a processor call: the fields of the untyped `content` object
that the processor reads (`content.command`, `content.fen`, `content.question`). -/
structure Content where
  command : String
  fen : String
  question : String
deriving DecidableEq, Repr

/-- Outcome of one call to the LLM completion capability
(`this.llmClient.complete(prompt)`): either the call threw, or it returned text. -/
inductive Completion where
  | threw (msg : String)
  | returned (text : String)
deriving DecidableEq, Repr

/-- Fields extracted from the completion text by the JSON-parsing block
(`JSON.parse` of the response text, possibly twice for a nested string).
Empty string models a missing or falsy field, matching the
`!parsed.analysis || !parsed.recommendedMove` truthiness test. -/
structure LLMParsed where
  analysis : String
  recommendedMove : String
deriving DecidableEq, Repr

/-- Reasons the analyze path of `process` can throw inside its try block. -/
inductive AnalysisFailReason where
  | completionError (msg : String)
  | parseError
  | missingFields
  | illegalMove (m : String)
deriving DecidableEq, Repr

/-- Errors `process` can propagate to its caller.  `analysisFailed r` models
the rethrow in the catch block (the source wraps the message). -/
inductive ProcErr where
  | invalidCommand
  | invalidFen
  | chatCompletionError (msg : String)
  | analysisFailed (r : AnalysisFailReason)
deriving DecidableEq, Repr

/-- Result of a normal return of `process`: `content` plus the metadata
fields `recommendedMove` and `legalMoves` (the chat path returns empty
metadata, modelled as `none` and `[]`). -/
structure ProcessedResult where
  content : String
  recommendedMove : Option String
  legalMoves : List String
deriving DecidableEq, Repr

/-- Try block of the analyze path (lines 86-125 of variant 1,
193-232 of variant 2): complete, parse the text, check both fields are
truthy, check the move is legal, and return; every failure is rethrown by
the catch block, modelled as an error result.  `parse` abstracts the
JSON-extraction of the two fields from arbitrary completion text. -/
def analyzePipeline (legalMoves : List String)
    (parse : String → Option LLMParsed) (completion : Completion) :
    Except ProcErr ProcessedResult :=
  match completion with
  | .threw msg => .error (.analysisFailed (.completionError msg))
  | .returned text =>
    match parse text with
    | none => .error (.analysisFailed .parseError)
    | some p =>
      if p.analysis == "" || p.recommendedMove == "" then
        .error (.analysisFailed .missingFields)
      else if legalMoves.contains p.recommendedMove then
        .ok ⟨p.analysis, some p.recommendedMove, legalMoves⟩
      else
        .error (.analysisFailed (.illegalMove p.recommendedMove))

/-- Variant-1 `ChessProcessor.process` (file lines 35-126): rejects commands
other than analyze and chat, constructs the board from the FEN (throwing on
an invalid FEN, modelled by the `fenOk` oracle), answers chat from the raw
completion text, and runs the analyze pipeline otherwise.  `oracleMoves`
is the board oracle `game.moves()` for a FEN. -/
def processV1 (fenOk : String → Bool) (oracleMoves : String → List String)
    (parse : String → Option LLMParsed) (completion : Completion)
    (c : Content) : Except ProcErr ProcessedResult :=
  if !(c.command == "analyze" || c.command == "chat") then
    .error .invalidCommand
  else if !(fenOk c.fen) then
    .error .invalidFen
  else if c.command == "chat" then
    match completion with
    | .threw msg => .error (.chatCompletionError msg)
    | .returned text => .ok ⟨text, none, []⟩
  else
    analyzePipeline (oracleMoves c.fen) parse completion

/-- Variant-2 `ChessProcessor.process` (file lines 169-233): rejects every
command except analyze, then runs the same analyze pipeline. -/
def processV2 (fenOk : String → Bool) (oracleMoves : String → List String)
    (parse : String → Option LLMParsed) (completion : Completion)
    (c : Content) : Except ProcErr ProcessedResult :=
  if !(c.command == "analyze") then
    .error .invalidCommand
  else if !(fenOk c.fen) then
    .error .invalidFen
  else
    analyzePipeline (oracleMoves c.fen) parse completion

/-- Variant-1 `canHandle` (lines 31-33): truthy command contained in
new, move, analyze, chat. -/
def canHandleV1 (c : Content) : Bool :=
  c.command != "" && (["new", "move", "analyze", "chat"].contains c.command)

/-- Variant-2 `canHandle` (lines 157-159): truthy command contained in
new, move, analyze. -/
def canHandleV2 (c : Content) : Bool :=
  c.command != "" && (["new", "move", "analyze"].contains c.command)

/-- Variant-2 `getGameStatus` (lines 161-167), over the four terminal-state
predicates of the board oracle, in the exact order the source tests them. -/
def getGameStatus (isCheckmate isDraw isStalemate isCheck : Bool) : String :=
  if isCheckmate then "checkmate"
  else if isDraw then "draw"
  else if isStalemate then "stalemate"
  else if isCheck then "check"
  else "ongoing"

/-- Variant-1 `process` together with the processor state `this.games`
(a map from game id to board), threaded explicitly.  The body of `process`
neither reads nor writes `this.games`, so the state passes through. -/
def processV1Run (games : List (String × String)) (fenOk : String → Bool)
    (oracleMoves : String → List String) (parse : String → Option LLMParsed)
    (completion : Completion) (c : Content) :
    Except ProcErr ProcessedResult × List (String × String) :=
  (processV1 fenOk oracleMoves parse completion c, games)

/-- Variant-2 `process` with the `this.games` state threaded explicitly;
as in variant 1, the body never touches the map. -/
def processV2Run (games : List (String × String)) (fenOk : String → Bool)
    (oracleMoves : String → List String) (parse : String → Option LLMParsed)
    (completion : Completion) (c : Content) :
    Except ProcErr ProcessedResult × List (String × String) :=
  (processV2 fenOk oracleMoves parse completion c, games)

/-! ## Turn orchestration (examples/chess-ai-match.ts) -/

/-- Last six elements of a list, as in `array.slice(-6)`. -/
def lastSix (l : List String) : List String :=
  l.drop (l.length - 6)

/-- Splitting a character list at every space, accumulating the current
token in reverse: the JavaScript `split(' ')` (empty tokens kept). -/
def jsSplitSpaceGo : List Char → List Char → List String
  | [], acc => [String.mk acc.reverse]
  | c :: r, acc =>
    if c = ' ' then String.mk acc.reverse :: jsSplitSpaceGo r []
    else jsSplitSpaceGo r (c :: acc)

/-- The JavaScript `s.split(' ')`: split on every single space, keeping
empty tokens, with `[""]` for the empty string. -/
def jsSplitSpace (s : String) : List String :=
  jsSplitSpaceGo s.data []

/-- The source `isRepetitiveMove(move, pgn)` (lines 366-370): split the PGN
string on single spaces, keep the last six tokens, and flag the move when it
occurs at least twice among them. -/
def isRepetitiveMove (move pgn : String) : Bool :=
  let moves := lastSix (jsSplitSpace pgn)
  let lastThreeMoves := moves.filter (fun m => m == move)
  decide (2 ≤ lastThreeMoves.length)

/-- Observable outcome of one automated-side move-selection step of
`playMatch` (lines 348-412). -/
inductive StepOutcome where
  | played (m : String)
  | haltNoMove
  | haltInvalidMove
  | haltNoAlternative
deriving DecidableEq, Repr

/-- Move-selection step of `playMatch`: no recommended move halts the match
with a could-not-decide message; a move failing `validateMove` halts with a
suggested-invalid-move message; a repetitive move is replaced by the first
possible move different from it, halting when no alternative exists;
otherwise the proposed move is played.  `validate` abstracts
`validateMove(game.fen, m)` and `possibleMoves` is `game.possibleMoves`. -/
def matchStep (recommended : Option String) (validate : String → Bool)
    (pgn : String) (possibleMoves : List String) : StepOutcome :=
  match recommended with
  | none => .haltNoMove
  | some move =>
    if !(validate move) then .haltInvalidMove
    else if isRepetitiveMove move pgn then
      match possibleMoves.filter (fun m => m != move) with
      | [] => .haltNoAlternative
      | alt :: _ => .played alt
    else .played move

/-- ASCII behaviour of the JavaScript `toLowerCase` on one character:
code points 65-90 shift up by 32, everything else is unchanged. -/
def jsToLower (c : Char) : Char :=
  if 65 ≤ c.toNat ∧ c.toNat ≤ 90 then Char.ofNat (c.toNat + 32) else c

/-- ASCII behaviour of the JavaScript `toUpperCase` on one character:
code points 97-122 shift down by 32, everything else is unchanged. -/
def jsToUpper (c : Char) : Char :=
  if 97 ≤ c.toNat ∧ c.toNat ≤ 122 then Char.ofNat (c.toNat - 32) else c

/-- Piece value table of `calculateMaterial` (line 90), read through
`values[char.toLowerCase()] || 0`: p 1, n 3, b 3, r 5, q 9, k 0,
anything else 0. -/
def pieceValue (c : Char) : Int :=
  if jsToLower c = 'p' then 1
  else if jsToLower c = 'n' then 3
  else if jsToLower c = 'b' then 3
  else if jsToLower c = 'r' then 5
  else if jsToLower c = 'q' then 9
  else if jsToLower c = 'k' then 0
  else 0

/-- Contribution of one character of the board field:
`char === char.toUpperCase() ? value : -value`. -/
def materialTerm (c : Char) : Int :=
  if jsToUpper c = c then pieceValue c else -pieceValue c

/-- Characters of `fen.split(' ')[0]`: everything before the first space. -/
def boardFieldChars (fen : String) : List Char :=
  fen.data.takeWhile (fun c => c != ' ')

/-- The source `calculateMaterial(fen)` (lines 89-97): reduce the characters
of the board field, adding the piece value for upper-case (White) characters
and subtracting it for the rest. -/
def calculateMaterial (fen : String) : Int :=
  (boardFieldChars fen).foldl (fun sum c => sum + materialTerm c) 0

/-- Case-swap of one character: lower-case letters become upper-case and
conversely; all other characters are unchanged. -/
def swapCase (c : Char) : Char :=
  if 97 ≤ c.toNat ∧ c.toNat ≤ 122 then Char.ofNat (c.toNat - 32)
  else if 65 ≤ c.toNat ∧ c.toNat ≤ 90 then Char.ofNat (c.toNat + 32)
  else c

/-- Case-swap of every character of a string. -/
def swapCaseStr (s : String) : String :=
  String.mk (s.data.map swapCase)

/-- White material of the board field: piece values of the characters that
are fixed by `toUpperCase`. -/
def whiteMaterial (fen : String) : Int :=
  ((boardFieldChars fen).map
    (fun c => if jsToUpper c = c then pieceValue c else 0)).sum

/-- Black material of the board field: piece values of the characters that
are moved by `toUpperCase`, i.e. the lower-case letters. -/
def blackMaterial (fen : String) : Int :=
  ((boardFieldChars fen).map
    (fun c => if jsToUpper c = c then 0 else pieceValue c)).sum

/-- FEN of the standard starting position. -/
def startFEN : String :=
  "rnbqkbnr/pppppppp/8/8/8/8/PPPPPPPP/RNBQKBNR w KQkq - 0 1"

/-! ## WebSocket gateway (message handler of the connection listener) -/

/-- Game state fields of the gateway (`currentGame`): the FEN and the
status returned by the session handler. -/
structure GwGameState where
  fen : String
  status : String
deriving DecidableEq, Repr

/-- Outbound JSON events the gateway sends on the socket. -/
inductive OutEvent where
  | gameOver (status : String)
  | moveEv (move fen : String)
  | message (text : String)
  | errorEv (msg : String)
deriving DecidableEq, Repr

/-- Downstream calls of the message handler: the session handler
(`handler` executing a move command), and the two processor calls
(analyze returning a `ProcessedResult`, chat returning text).  Each is a
function that either returns or throws with a message. -/
structure GwEnv where
  moveExec : String → String → Except String GwGameState
  analyzeExec : String → Except String ProcessedResult
  chatExec : String → Except String String

/-- Inbound message after `JSON.parse`: either the parse threw, or an event
with its `type`, `move`, `fen` and `position` fields. -/
inductive Inbound where
  | malformed
  | ev (type move fen position : String)
deriving DecidableEq, Repr

/-- Result of handling one inbound message: events sent on the socket,
the updated `currentGame`, and whether the handler closed the connection
(the source contains no close call, so this is always false). -/
structure GwOut where
  events : List OutEvent
  game : GwGameState
  closed : Bool
deriving DecidableEq, Repr

/-- Message handler of the gateway connection listener: dispatch on the
parsed `data.type`.  A move event executes the human move, reports game
over or asks the processor for the reply move and executes it, converting
any thrown error into an error event (inner catch, using the thrown
message).  Chat and analyze events answer with a message event; their
failures reach the outer catch, which sends a fixed internal-server-error
event, as does a JSON parse failure.  An event of any other type sends
nothing. -/
def handleMessage (env : GwEnv) (g : GwGameState) (inb : Inbound) : GwOut :=
  match inb with
  | .malformed => ⟨[.errorEv "Internal server error"], g, false⟩
  | .ev t mv fen pos =>
    if t == "move" then
      match env.moveExec mv fen with
      | .error e => ⟨[.errorEv e], g, false⟩
      | .ok g1 =>
        if g1.status != "ongoing" then ⟨[.gameOver g1.status], g1, false⟩
        else
          match env.analyzeExec g1.fen with
          | .error e => ⟨[.errorEv e], g1, false⟩
          | .ok a =>
            match a.recommendedMove with
            | some m =>
              if m == "" then ⟨[], g1, false⟩
              else
                match env.moveExec m g1.fen with
                | .error e => ⟨[.errorEv e], g1, false⟩
                | .ok g2 => ⟨[.moveEv m g2.fen], g2, false⟩
            | none => ⟨[], g1, false⟩
    else if t == "chat" then
      match env.chatExec g.fen with
      | .error _ => ⟨[.errorEv "Internal server error"], g, false⟩
      | .ok text => ⟨[.message text], g, false⟩
    else if t == "analyze" then
      match env.analyzeExec pos with
      | .error _ => ⟨[.errorEv "Internal server error"], g, false⟩
      | .ok a => ⟨[.message a.content], g, false⟩
    else ⟨[], g, false⟩

/-- Concrete downstream environment used to evaluate the gateway handler on
closed inputs: the session handler plays on a fixed ongoing game and the
processor always answers. -/
def sampleEnv : GwEnv where
  moveExec := fun _ _ => .ok ⟨"fen2", "ongoing"⟩
  analyzeExec := fun _ => .ok ⟨"fine position", some "e4", ["e4"]⟩
  chatExec := fun _ => .ok "hello"

/-- Concrete gateway game state for closed evaluations. -/
def sampleGame : GwGameState :=
  ⟨"fen1", "ongoing"⟩

/-! ## Browser client (clients/chess-ui/src/components/chess-ui.tsx) -/

/-- Lower-casing of a whole string, character by character. -/
def jsToLowerStr (s : String) : String :=
  String.mk (s.data.map jsToLower)

/-- Character class `[NBRQK]` of the move-format pattern. -/
def pieceClass (c : Char) : Bool :=
  c == 'N' || c == 'B' || c == 'R' || c == 'Q' || c == 'K'

/-- Character class `[a-h]`. -/
def fileClass (c : Char) : Bool :=
  97 ≤ c.toNat && c.toNat ≤ 104

/-- Character class `[1-8]`. -/
def rankClass (c : Char) : Bool :=
  49 ≤ c.toNat && c.toNat ≤ 56

/-- Character class `[+#]`. -/
def checkClass (c : Char) : Bool :=
  c == '+' || c == '#'

/-- Character class `[NBRQ]` of the promotion group. -/
def promoClass (c : Char) : Bool :=
  c == 'N' || c == 'B' || c == 'R' || c == 'Q'

/-- Remainders after matching an optional single character of class `p`:
either skip the group or consume one matching character. -/
def optCl (p : Char → Bool) : List Char → List (List Char)
  | [] => [[]]
  | c :: r => if p c then [c :: r, r] else [c :: r]

/-- Remainders after matching the optional promotion group `(=[NBRQ])?`. -/
def promoOpt : List Char → List (List Char)
  | '=' :: c :: r => if promoClass c then ['=' :: c :: r, r] else ['=' :: c :: r]
  | l => [l]

/-- Match of the mandatory tail `([a-h][1-8])(=[NBRQ])?[+#]?$` of the
move-format pattern. -/
def destTail (l : List Char) : Bool :=
  match l with
  | a :: b :: rest =>
    fileClass a && rankClass b &&
      (promoOpt rest).any (fun l2 => (optCl checkClass l2).any List.isEmpty)
  | _ => false

/-- Full test of the move-format regular expression
`^([NBRQK])?([a-h])?([1-8])?x?([a-h][1-8])(=[NBRQ])?[+#]?$` (line 126),
by exhaustive backtracking over the optional groups. -/
def movePatternTest (s : String) : Bool :=
  (optCl pieceClass s.data).any fun l1 =>
    (optCl fileClass l1).any fun l2 =>
      (optCl rankClass l2).any fun l3 =>
        (optCl (fun c => c == 'x') l3).any destTail

/-- Decides whether `pat` is an initial segment of `l`. -/
def startsWithChars : List Char → List Char → Bool
  | [], _ => true
  | _ :: _, [] => false
  | a :: as, b :: bs => a == b && startsWithChars as bs

/-- Decides whether `pat` occurs contiguously inside `l`
(the JavaScript `includes`). -/
def hasSubstr (pat : List Char) : List Char → Bool
  | [] => startsWithChars pat []
  | c :: r => startsWithChars pat (c :: r) || hasSubstr pat r

/-- Observable outcome of the browser `handleCommand`: nothing done, quit,
chat or analyze request sent, rejection with the invalid-move-format
message, or the normalized move text handed to `game.move` (and onward to
the channel on success). -/
inductive CmdOutcome where
  | noop
  | quit
  | chatSent
  | analyzeSent
  | invalidFormat
  | forwarded (m : String)
deriving DecidableEq, Repr

/-- Dispatch of `handleCommand` on the normalized command text (the source
lower-cases and trims the raw input first): quit, chat and analyze are
keywords; a remaining input failing both the move-format pattern and the
castling substring test is rejected; anything else goes to the board. -/
def handleCore (cmd : String) : CmdOutcome :=
  if cmd == "" then .noop
  else if cmd == "quit" then .quit
  else if cmd == "chat" then .chatSent
  else if cmd == "analyze" then .analyzeSent
  else if !(movePatternTest cmd) && !(hasSubstr ['o', '-', 'o'] cmd.data) then
    .invalidFormat
  else .forwarded cmd

/-- Whitespace characters removed by trimming. -/
def isWsp (c : Char) : Bool :=
  c == ' ' || c == '\t' || c == '\n' || c == '\r'

/-- The JavaScript `trim()`: leading and trailing whitespace removed. -/
def jsTrim (s : String) : String :=
  String.mk (((s.data.dropWhile isWsp).reverse.dropWhile isWsp).reverse)

/-- The browser `handleCommand` (lines 101-155) on the raw input:
`command.trim().toLowerCase()` followed by the dispatch. -/
def handleCommand (input : String) : CmdOutcome :=
  handleCore (jsToLowerStr (jsTrim input))

/-! ## Concrete sample instantiations used for closed evaluations -/

/-- Sample FEN-validity oracle: every FEN accepted. -/
def sampleFenOk : String → Bool := fun _ => true

/-- Sample board oracle: two legal moves at every position. -/
def sampleOracle : String → List String := fun _ => ["e4", "d4"]

/-- Sample parse of completion text: analysis plus the move e4. -/
def sampleParse : String → Option LLMParsed := fun _ => some ⟨"good", "e4"⟩

/-- Sample move validation, as legality in a fixed two-move set. -/
def sampleValidate : String → Bool := fun m => ["Nf3", "a3"].contains m

/-- Sample parse whose analysis field is falsy (missing). -/
def sampleParseMissing : String → Option LLMParsed := fun _ => some ⟨"", "e4"⟩

/-- Sample parse suggesting a move outside the sample oracle list. -/
def sampleParseIllegal : String → Option LLMParsed :=
  fun _ => some ⟨"good", "Ke9"⟩

/-! ## Theorems -/

/-- C2 counterexample: when the completion call throws during an analyze
command, both variants of `process` propagate an error to the caller (the
rethrow in the catch block) instead of returning a default-policy move. -/
theorem c2_counterexample :
    processV1 sampleFenOk sampleOracle sampleParse (.threw "boom")
      ⟨"analyze", startFEN, ""⟩ =
      .error (.analysisFailed (.completionError "boom")) ∧
    processV2 sampleFenOk sampleOracle sampleParse (.threw "boom")
      ⟨"analyze", startFEN, ""⟩ =
      .error (.analysisFailed (.completionError "boom")) := by
  exact ⟨rfl, rfl⟩

/-- Helper: variant-1 `process` on an analyze command with a valid FEN is
the analyze pipeline over the oracle move list of the supplied FEN. -/
theorem processV1_analyze_eq (fenOk : String → Bool)
    (oracle : String → List String) (parse : String → Option LLMParsed)
    (completion : Completion) (c : Content)
    (hcmd : c.command = "analyze") (hfen : fenOk c.fen = true) :
    processV1 fenOk oracle parse completion c =
      analyzePipeline (oracle c.fen) parse completion := by
  unfold processV1
  rw [hcmd, hfen]
  simp

/-- Helper: variant-2 `process` on an analyze command with a valid FEN is
the analyze pipeline over the oracle move list of the supplied FEN. -/
theorem processV2_analyze_eq (fenOk : String → Bool)
    (oracle : String → List String) (parse : String → Option LLMParsed)
    (completion : Completion) (c : Content)
    (hcmd : c.command = "analyze") (hfen : fenOk c.fen = true) :
    processV2 fenOk oracle parse completion c =
      analyzePipeline (oracle c.fen) parse completion := by
  unfold processV2
  rw [hcmd, hfen]
  simp

/-- Helper: a falsy analysis or recommended-move field makes the analyze
pipeline fail with the missing-fields error. -/
theorem analyzePipeline_missing (lm : List String)
    (parse : String → Option LLMParsed) (text : String) (p : LLMParsed)
    (hp : parse text = some p)
    (h : p.analysis = "" ∨ p.recommendedMove = "") :
    analyzePipeline lm parse (.returned text) =
      .error (.analysisFailed .missingFields) := by
  simp only [analyzePipeline]
  rw [hp]
  dsimp only
  rcases h with h | h <;> simp [h]

/-- Helper: a suggested move outside the legal list makes the analyze
pipeline fail with the illegal-move error. -/
theorem analyzePipeline_illegal (lm : List String)
    (parse : String → Option LLMParsed) (text : String) (p : LLMParsed)
    (hp : parse text = some p) (ha : p.analysis ≠ "")
    (hr : p.recommendedMove ≠ "") (hn : p.recommendedMove ∉ lm) :
    analyzePipeline lm parse (.returned text) =
      .error (.analysisFailed (.illegalMove p.recommendedMove)) := by
  simp only [analyzePipeline]
  rw [hp]
  dsimp only
  rw [if_neg (by simp [ha, hr])]
  rw [if_neg (fun hc => hn (List.mem_of_elem_eq_true hc))]

/-- Helper: a normal return of the analyze pipeline echoes the parsed
completion fields: its content is the parsed analysis and its move is the
parsed recommended move, never a substituted one. -/
theorem analyzePipeline_ok_echo (lm : List String)
    (parse : String → Option LLMParsed) (completion : Completion)
    (r : ProcessedResult)
    (h : analyzePipeline lm parse completion = .ok r) :
    ∃ text p, completion = .returned text ∧ parse text = some p ∧
      r.content = p.analysis ∧ r.recommendedMove = some p.recommendedMove := by
  cases completion with
  | threw msg => simp [analyzePipeline] at h
  | returned text =>
    simp only [analyzePipeline] at h
    cases hp : parse text with
    | none => rw [hp] at h; simp at h
    | some p =>
      rw [hp] at h
      dsimp only at h
      by_cases hf : (p.analysis == "" || p.recommendedMove == "") = true
      · rw [if_pos hf] at h; simp at h
      · rw [if_neg hf] at h
        by_cases hc : (lm.contains p.recommendedMove) = true
        · rw [if_pos hc] at h
          cases h
          exact ⟨text, p, rfl, hp, rfl, rfl⟩
        · rw [if_neg hc] at h; simp at h

/-- C2 (amended): every completion-capability failure during an analyze
call is rethrown to the caller as an analysis-failed error: a completion
throw wraps the original message, unparseable content fails with the parse
error, a falsy analysis or move field fails with the missing-fields error,
and an illegal suggested move fails with the illegal-move error, in both
variants; and no default-policy move is ever produced: a normal return
only ever echoes the parsed analysis and the parsed recommended move. -/
theorem c2_analyze_failure_rethrown :
    ∀ (fenOk : String → Bool) (oracle : String → List String)
      (parse : String → Option LLMParsed) (c : Content),
      c.command = "analyze" → fenOk c.fen = true →
      (∀ m, processV1 fenOk oracle parse (.threw m) c =
          .error (.analysisFailed (.completionError m)) ∧
        processV2 fenOk oracle parse (.threw m) c =
          .error (.analysisFailed (.completionError m))) ∧
      (∀ text, parse text = none →
        processV1 fenOk oracle parse (.returned text) c =
          .error (.analysisFailed .parseError) ∧
        processV2 fenOk oracle parse (.returned text) c =
          .error (.analysisFailed .parseError)) ∧
      (∀ text p, parse text = some p →
        (p.analysis = "" ∨ p.recommendedMove = "") →
        processV1 fenOk oracle parse (.returned text) c =
          .error (.analysisFailed .missingFields) ∧
        processV2 fenOk oracle parse (.returned text) c =
          .error (.analysisFailed .missingFields)) ∧
      (∀ text p, parse text = some p → p.analysis ≠ "" →
        p.recommendedMove ≠ "" → p.recommendedMove ∉ oracle c.fen →
        processV1 fenOk oracle parse (.returned text) c =
          .error (.analysisFailed (.illegalMove p.recommendedMove)) ∧
        processV2 fenOk oracle parse (.returned text) c =
          .error (.analysisFailed (.illegalMove p.recommendedMove))) ∧
      (∀ completion r,
        processV1 fenOk oracle parse completion c = .ok r ∨
        processV2 fenOk oracle parse completion c = .ok r →
        ∃ text p, completion = .returned text ∧ parse text = some p ∧
          r.content = p.analysis ∧
          r.recommendedMove = some p.recommendedMove) := by
  intro fenOk oracle parse c hcmd hfen
  refine ⟨?_, ?_, ?_, ?_, ?_⟩
  · intro m
    rw [processV1_analyze_eq fenOk oracle parse _ c hcmd hfen,
      processV2_analyze_eq fenOk oracle parse _ c hcmd hfen]
    exact ⟨rfl, rfl⟩
  · intro text hparse
    rw [processV1_analyze_eq fenOk oracle parse _ c hcmd hfen,
      processV2_analyze_eq fenOk oracle parse _ c hcmd hfen]
    constructor <;> simp [analyzePipeline, hparse]
  · intro text p hp hfields
    rw [processV1_analyze_eq fenOk oracle parse _ c hcmd hfen,
      processV2_analyze_eq fenOk oracle parse _ c hcmd hfen]
    exact ⟨analyzePipeline_missing _ parse text p hp hfields,
      analyzePipeline_missing _ parse text p hp hfields⟩
  · intro text p hp ha hr hn
    rw [processV1_analyze_eq fenOk oracle parse _ c hcmd hfen,
      processV2_analyze_eq fenOk oracle parse _ c hcmd hfen]
    exact ⟨analyzePipeline_illegal _ parse text p hp ha hr hn,
      analyzePipeline_illegal _ parse text p hp ha hr hn⟩
  · intro completion r hok
    rcases hok with hok | hok
    · rw [processV1_analyze_eq fenOk oracle parse _ c hcmd hfen] at hok
      exact analyzePipeline_ok_echo _ parse completion r hok
    · rw [processV2_analyze_eq fenOk oracle parse _ c hcmd hfen] at hok
      exact analyzePipeline_ok_echo _ parse completion r hok

/-- C2 witness: the amended statement evaluated on concrete failing
completions of all three local kinds: a thrown completion, a parsed object
with a falsy analysis field, and a parsed object suggesting an illegal
move. -/
theorem c2_analyze_failure_rethrown_witness :
    processV1 sampleFenOk sampleOracle sampleParse (.threw "boom")
      ⟨"analyze", startFEN, ""⟩ =
      .error (.analysisFailed (.completionError "boom")) ∧
    processV1 sampleFenOk sampleOracle sampleParseMissing (.returned "x")
      ⟨"analyze", startFEN, ""⟩ =
      .error (.analysisFailed .missingFields) ∧
    processV1 sampleFenOk sampleOracle sampleParseIllegal (.returned "x")
      ⟨"analyze", startFEN, ""⟩ =
      .error (.analysisFailed (.illegalMove "Ke9")) := by
  refine ⟨((c2_analyze_failure_rethrown sampleFenOk sampleOracle sampleParse
      ⟨"analyze", startFEN, ""⟩ rfl rfl).1 "boom").1, ?_, ?_⟩
  · exact ((c2_analyze_failure_rethrown sampleFenOk sampleOracle
      sampleParseMissing ⟨"analyze", startFEN, ""⟩ rfl rfl).2.2.1 "x"
      ⟨"", "e4"⟩ rfl (Or.inl rfl)).1
  · exact ((c2_analyze_failure_rethrown sampleFenOk sampleOracle
      sampleParseIllegal ⟨"analyze", startFEN, ""⟩ rfl rfl).2.2.2.1 "x"
      ⟨"good", "Ke9"⟩ rfl (by decide) (by decide) (by decide)).1

/-- C3 counterexample: a position whose oracle predicates flag both
stalemate and draw (as chess.js does for every stalemate) is reported
as draw, not stalemate. -/
theorem c3_counterexample :
    getGameStatus false true true false = "draw" ∧
    getGameStatus false true true false ≠ "stalemate" := by
  exact ⟨rfl, by decide⟩

/-- C3 (amended): the recomputed status follows the priority order
checkmate, then draw, then stalemate, then check, then ongoing, exactly
as the predicates are tested in `getGameStatus`. -/
theorem c3_status_priority :
    (∀ dr st ch, getGameStatus true dr st ch = "checkmate") ∧
    (∀ st ch, getGameStatus false true st ch = "draw") ∧
    (∀ ch, getGameStatus false false true ch = "stalemate") ∧
    getGameStatus false false false true = "check" ∧
    getGameStatus false false false false = "ongoing" := by
  exact ⟨fun _ _ _ => rfl, fun _ _ => rfl, fun _ => rfl, rfl, rfl⟩

/-- C5 counterexample: a proposed automated move that fails validation
halts the match at once, although alternative legal moves are available;
nothing is retried and the could-not-decide outcome is not produced. -/
theorem c5_counterexample :
    matchStep (some "Zz9") sampleValidate "" ["Nf3", "a3"] =
      .haltInvalidMove ∧
    StepOutcome.haltInvalidMove ≠ .played "Nf3" ∧
    StepOutcome.haltInvalidMove ≠ .played "a3" ∧
    StepOutcome.haltInvalidMove ≠ .haltNoMove := by
  exact ⟨rfl, by decide, by decide, by decide⟩

/-- C5 (amended): an automated move that fails validation halts the match
immediately with the suggested-invalid-move outcome (no retry with an
alternative); the could-not-determine-a-move outcome arises exactly when
the analysis returned no move at all. -/
theorem c5_invalid_move_halts :
    (∀ (move pgn : String) (validate : String → Bool)
       (possible : List String), validate move = false →
       matchStep (some move) validate pgn possible = .haltInvalidMove) ∧
    (∀ (pgn : String) (validate : String → Bool) (possible : List String),
       matchStep none validate pgn possible = .haltNoMove) := by
  constructor
  · intro move pgn validate possible h
    simp [matchStep, h]
  · intro pgn validate possible
    rfl

/-- C5 witness: the amended statement evaluated on a concrete invalid
proposal. -/
theorem c5_invalid_move_halts_witness :
    matchStep (some "Zz9") sampleValidate "x" ["a3"] = .haltInvalidMove := by
  exact c5_invalid_move_halts.1 "Zz9" "x" sampleValidate ["a3"] rfl

/-- C7: analyze and chat calls leave the processor state `this.games`
untouched in both variants: the state after the call is the state before. -/
theorem c7_process_preserves_games :
    ∀ (games : List (String × String)) (fenOk : String → Bool)
      (oracle : String → List String) (parse : String → Option LLMParsed)
      (completion : Completion) (c : Content),
      c.command = "analyze" ∨ c.command = "chat" →
      (processV1Run games fenOk oracle parse completion c).2 = games ∧
      (processV2Run games fenOk oracle parse completion c).2 = games := by
  intro games fenOk oracle parse completion c _
  exact ⟨rfl, rfl⟩

/-- C7 witness: state preservation evaluated on a concrete analyze call. -/
theorem c7_process_preserves_games_witness :
    (processV1Run [("game1", startFEN)] sampleFenOk sampleOracle sampleParse
      (.returned "x") ⟨"analyze", startFEN, ""⟩).2 = [("game1", startFEN)] := by
  exact (c7_process_preserves_games [("game1", startFEN)] sampleFenOk
    sampleOracle sampleParse (.returned "x") ⟨"analyze", startFEN, ""⟩
    (Or.inl rfl)).1

/-- C8: `canHandle` accepts the new and move commands in both variants, yet
`process` rejects them unconditionally with the invalid-command error; a
normal return of `process` is only possible for analyze or chat in variant 1
and only for analyze in variant 2, so the commands `canHandle` accepts
strictly contain those `process` can execute. -/
theorem c8_canhandle_process_mismatch :
    (∀ fen q : String,
      canHandleV1 ⟨"new", fen, q⟩ = true ∧ canHandleV1 ⟨"move", fen, q⟩ = true ∧
      canHandleV2 ⟨"new", fen, q⟩ = true ∧ canHandleV2 ⟨"move", fen, q⟩ = true) ∧
    (∀ (fenOk : String → Bool) (oracle : String → List String)
       (parse : String → Option LLMParsed) (completion : Completion)
       (c : Content), c.command = "new" ∨ c.command = "move" →
       processV1 fenOk oracle parse completion c = .error .invalidCommand ∧
       processV2 fenOk oracle parse completion c = .error .invalidCommand) ∧
    (∀ (fenOk : String → Bool) (oracle : String → List String)
       (parse : String → Option LLMParsed) (completion : Completion)
       (c : Content) (r : ProcessedResult),
       processV1 fenOk oracle parse completion c = .ok r →
       (c.command = "analyze" ∨ c.command = "chat") ∧ canHandleV1 c = true) ∧
    (∀ (fenOk : String → Bool) (oracle : String → List String)
       (parse : String → Option LLMParsed) (completion : Completion)
       (c : Content) (r : ProcessedResult),
       processV2 fenOk oracle parse completion c = .ok r →
       c.command = "analyze" ∧ canHandleV2 c = true) := by
  refine ⟨fun fen q => ⟨rfl, rfl, rfl, rfl⟩, ?_, ?_, ?_⟩
  · intro fenOk oracle parse completion c h
    rcases h with h | h <;>
      exact ⟨by simp [processV1, h], by simp [processV2, h]⟩
  · intro fenOk oracle parse completion c r h
    by_cases h1 : c.command = "analyze"
    · exact ⟨Or.inl h1, by simp [canHandleV1, h1]⟩
    · by_cases h2 : c.command = "chat"
      · exact ⟨Or.inr h2, by simp [canHandleV1, h2]⟩
      · have e1 : (c.command == "analyze") = false := beq_eq_false_iff_ne.mpr h1
        have e2 : (c.command == "chat") = false := beq_eq_false_iff_ne.mpr h2
        simp [processV1, e1, e2] at h
  · intro fenOk oracle parse completion c r h
    by_cases h1 : c.command = "analyze"
    · exact ⟨h1, by simp [canHandleV2, h1]⟩
    · have e1 : (c.command == "analyze") = false := beq_eq_false_iff_ne.mpr h1
      simp [processV2, e1] at h

/-- C8 witness: variant-1 `canHandle` accepts the new command while
`process` rejects it, evaluated concretely. -/
theorem c8_canhandle_process_mismatch_witness :
    canHandleV1 ⟨"new", startFEN, ""⟩ = true ∧
    processV1 sampleFenOk sampleOracle sampleParse (.returned "x")
      ⟨"new", startFEN, ""⟩ = .error .invalidCommand := by
  exact ⟨(c8_canhandle_process_mismatch.1 startFEN "").1,
    (c8_canhandle_process_mismatch.2.1 sampleFenOk sampleOracle sampleParse
      (.returned "x") ⟨"new", startFEN, ""⟩ (Or.inl rfl)).1⟩

/-- Helper: a normal return of the analyze pipeline carries a recommended
move drawn from the legal-move list it was given, and echoes that list. -/
theorem analyzePipeline_ok_mem (lm : List String)
    (parse : String → Option LLMParsed) (completion : Completion)
    (r : ProcessedResult) :
    analyzePipeline lm parse completion = .ok r →
    ∃ m, r.recommendedMove = some m ∧ m ∈ lm ∧ r.legalMoves = lm := by
  intro h
  cases completion with
  | threw msg => simp [analyzePipeline] at h
  | returned text =>
    simp only [analyzePipeline] at h
    cases hp : parse text with
    | none => rw [hp] at h; simp at h
    | some p =>
      rw [hp] at h
      dsimp only at h
      by_cases hf : (p.analysis == "" || p.recommendedMove == "") = true
      · rw [if_pos hf] at h; simp at h
      · rw [if_neg hf] at h
        by_cases hc : (lm.contains p.recommendedMove) = true
        · rw [if_pos hc] at h
          cases h
          exact ⟨p.recommendedMove, rfl, List.mem_of_elem_eq_true hc, rfl⟩
        · rw [if_neg hc] at h; simp at h

/-- C1: whenever either variant of `process` returns normally for an
analyze command, the recommended move in its metadata is a member of the
legal-move list the board oracle computed for the supplied FEN, and the
metadata echoes that list; this holds for every completion outcome and
every parse of its text. -/
theorem c1_recommended_move_legal :
    (∀ (fenOk : String → Bool) (oracle : String → List String)
       (parse : String → Option LLMParsed) (completion : Completion)
       (c : Content) (r : ProcessedResult),
       c.command = "analyze" →
       processV1 fenOk oracle parse completion c = .ok r →
       ∃ m, r.recommendedMove = some m ∧ m ∈ oracle c.fen ∧
         r.legalMoves = oracle c.fen) ∧
    (∀ (fenOk : String → Bool) (oracle : String → List String)
       (parse : String → Option LLMParsed) (completion : Completion)
       (c : Content) (r : ProcessedResult),
       c.command = "analyze" →
       processV2 fenOk oracle parse completion c = .ok r →
       ∃ m, r.recommendedMove = some m ∧ m ∈ oracle c.fen ∧
         r.legalMoves = oracle c.fen) := by
  constructor
  · intro fenOk oracle parse completion c r hcmd h
    unfold processV1 at h
    rw [hcmd] at h
    simp only [beq_self_eq_true, Bool.true_or, Bool.not_true,
      Bool.false_eq_true, if_false] at h
    cases hfen : fenOk c.fen with
    | false => rw [hfen] at h; simp at h
    | true =>
      rw [hfen] at h
      simp only [Bool.not_true, Bool.false_eq_true, if_false] at h
      have hne : (("analyze" : String) == "chat") = false := by decide
      rw [hne] at h
      simp only [Bool.false_eq_true, if_false] at h
      exact analyzePipeline_ok_mem _ _ _ _ h
  · intro fenOk oracle parse completion c r hcmd h
    unfold processV2 at h
    rw [hcmd] at h
    simp only [beq_self_eq_true, Bool.not_true, Bool.false_eq_true,
      if_false] at h
    cases hfen : fenOk c.fen with
    | false => rw [hfen] at h; simp at h
    | true =>
      rw [hfen] at h
      simp only [Bool.not_true, Bool.false_eq_true, if_false] at h
      exact analyzePipeline_ok_mem _ _ _ _ h

/-- C1 witness: a concrete analyze call returning normally, whose
recommended move lies in the oracle list. -/
theorem c1_recommended_move_legal_witness :
    ∃ m, (ProcessedResult.mk "good" (some "e4") ["e4", "d4"]).recommendedMove
        = some m ∧
      m ∈ sampleOracle startFEN ∧
      (ProcessedResult.mk "good" (some "e4") ["e4", "d4"]).legalMoves =
        sampleOracle startFEN := by
  exact c1_recommended_move_legal.1 sampleFenOk sampleOracle sampleParse
    (.returned "x") ⟨"analyze", startFEN, ""⟩
    ⟨"good", some "e4", ["e4", "d4"]⟩ rfl rfl

/-- Helper: the gateway message handler never closes the connection,
whatever the inbound message and the downstream results. -/
theorem handleMessage_closed_false :
    ∀ (env : GwEnv) (g : GwGameState) (inb : Inbound),
      (handleMessage env g inb).closed = false := by
  intro env g inb
  cases inb with
  | malformed => rfl
  | ev t mv fen pos =>
    unfold handleMessage
    repeat' first | rfl | split

/-- Helper: a move event always produces exactly one outbound event,
provided a successful analyze carries a nonempty recommended move
(which the processor guarantees, compare the analyze pipeline). -/
theorem handleMessage_move_one_event (env : GwEnv) (g : GwGameState)
    (mv fen pos : String)
    (hana : ∀ f a, env.analyzeExec f = .ok a →
      ∃ m, a.recommendedMove = some m ∧ m ≠ "") :
    (handleMessage env g (.ev "move" mv fen pos)).events.length = 1 := by
  unfold handleMessage
  simp only [beq_self_eq_true, if_true]
  cases hm : env.moveExec mv fen with
  | error e => rfl
  | ok g1 =>
    dsimp only
    by_cases h2 : (g1.status != "ongoing") = true
    · rw [if_pos h2]
      rfl
    · rw [if_neg h2]
      cases ha : env.analyzeExec g1.fen with
      | error e => rfl
      | ok a =>
        obtain ⟨m, hrm, hne⟩ := hana g1.fen a ha
        dsimp only
        rw [hrm]
        dsimp only
        rw [beq_eq_false_iff_ne.mpr hne]
        simp only [Bool.false_eq_true, if_false]
        cases env.moveExec m g1.fen with
        | error e => rfl
        | ok g2 => rfl

/-- Helper: a chat event always produces exactly one outbound event. -/
theorem handleMessage_chat_one_event (env : GwEnv) (g : GwGameState)
    (mv fen pos : String) :
    (handleMessage env g (.ev "chat" mv fen pos)).events.length = 1 := by
  unfold handleMessage
  have h1 : (("chat" : String) == "move") = false := by decide
  simp only [h1, Bool.false_eq_true, if_false, beq_self_eq_true, if_true]
  cases env.chatExec g.fen with
  | error e => rfl
  | ok text => rfl

/-- Helper: an analyze event always produces exactly one outbound event. -/
theorem handleMessage_analyze_one_event (env : GwEnv) (g : GwGameState)
    (mv fen pos : String) :
    (handleMessage env g (.ev "analyze" mv fen pos)).events.length = 1 := by
  unfold handleMessage
  have h1 : (("analyze" : String) == "move") = false := by decide
  have h2 : (("analyze" : String) == "chat") = false := by decide
  simp only [h1, h2, Bool.false_eq_true, if_false, beq_self_eq_true, if_true]
  cases env.analyzeExec pos with
  | error e => rfl
  | ok a => rfl

/-- C6 counterexample: an inbound event whose type is request-move (which
the browser client actually sends) produces no outbound event at all, so
the gateway does not produce exactly one outbound event per inbound
event. -/
theorem c6_counterexample :
    (handleMessage sampleEnv sampleGame
      (.ev "request_move" "e4" "f" "p")).events = [] ∧
    (handleMessage sampleEnv sampleGame
      (.ev "request_move" "e4" "f" "p")).events.length ≠ 1 := by
  exact ⟨rfl, by decide⟩

/-- C6 (amended): an inbound event of type move, chat or analyze produces
exactly one outbound event, as does an unparseable message (assuming a
successful analyze carries a nonempty recommended move, as the processor
guarantees); any error thrown by a downstream call is converted into an
error event (the thrown message for the move path, a fixed
internal-server-error text for the outer catch); and the handler never
closes the connection.  Events of any other type produce no output. -/
theorem c6_gateway_events :
    ∀ (env : GwEnv) (g : GwGameState) (t mv fen pos : String),
      (∀ f a, env.analyzeExec f = .ok a →
        ∃ m, a.recommendedMove = some m ∧ m ≠ "") →
      ((t = "move" ∨ t = "chat" ∨ t = "analyze") →
        (handleMessage env g (.ev t mv fen pos)).events.length = 1) ∧
      (handleMessage env g .malformed).events.length = 1 ∧
      (∀ inb, (handleMessage env g inb).closed = false) ∧
      (∀ e, env.moveExec mv fen = .error e →
        (handleMessage env g (.ev "move" mv fen pos)).events =
          [.errorEv e]) ∧
      (∀ e, env.chatExec g.fen = .error e →
        (handleMessage env g (.ev "chat" mv fen pos)).events =
          [.errorEv "Internal server error"]) := by
  intro env g t mv fen pos hana
  refine ⟨?_, rfl, handleMessage_closed_false env g, ?_, ?_⟩
  · intro ht
    rcases ht with rfl | rfl | rfl
    · exact handleMessage_move_one_event env g mv fen pos hana
    · exact handleMessage_chat_one_event env g mv fen pos
    · exact handleMessage_analyze_one_event env g mv fen pos
  · intro e he
    unfold handleMessage
    simp only [beq_self_eq_true, if_true]
    rw [he]
  · intro e he
    unfold handleMessage
    have h1 : (("chat" : String) == "move") = false := by decide
    simp only [h1, Bool.false_eq_true, if_false, beq_self_eq_true, if_true]
    rw [he]

/-- C6 witness: the amended statement evaluated on the concrete sample
gateway environment, for a move event and a malformed message. -/
theorem c6_gateway_events_witness :
    (handleMessage sampleEnv sampleGame (.ev "move" "e4" "f" "p")).events.length
      = 1 ∧
    (handleMessage sampleEnv sampleGame .malformed).events.length = 1 := by
  have hana : ∀ f a, sampleEnv.analyzeExec f = .ok a →
      ∃ m, a.recommendedMove = some m ∧ m ≠ "" := by
    intro f a h
    cases h
    exact ⟨"e4", rfl, by decide⟩
  exact ⟨(c6_gateway_events sampleEnv sampleGame "move" "e4" "f" "p" hana).1
      (Or.inl rfl),
    (c6_gateway_events sampleEnv sampleGame "move" "e4" "f" "p" hana).2.1⟩

/-- Helper: the move-format pattern rejects every string whose first
character belongs to none of the character classes that may open a match. -/
theorem movePatternTest_head_false (c : Char) (rest : List Char)
    (h1 : pieceClass c = false) (h2 : fileClass c = false)
    (h3 : rankClass c = false) (h4 : (c == 'x') = false) :
    movePatternTest (String.mk (c :: rest)) = false := by
  have h4x : ¬(c = 'x') := by simpa using h4
  cases rest with
  | nil => simp [movePatternTest, optCl, destTail, h1, h2, h3, h4x]
  | cons b r2 => simp [movePatternTest, optCl, destTail, h1, h2, h3, h4x]

/-- C9 counterexample: the bishop move Bf3 lower-cases to bf3, whose b is
admitted by the file-letter class of the pattern, so it passes the format
check and is handed to the board parser instead of being rejected with the
invalid-move-format message; a queen capture is rejected as the claim
describes. -/
theorem c9_counterexample :
    handleCommand "Bf3" = .forwarded "bf3" ∧
    handleCommand "Bf3" ≠ .invalidFormat ∧
    movePatternTest "bf3" = true ∧
    handleCommand "Qxd5" = .invalidFormat := by
  exact ⟨by decide, by decide, by decide, by decide⟩

/-- C9 (amended): after lower-casing, every input starting with n, q, r or
k (the knight, queen, rook and king prefixes) that is not the quit keyword
and has no castling substring is rejected with the invalid-move-format
outcome; bishop-prefixed moves lower-case to the file letter b and can pass
the format check.  Conversely everything forwarded to the board is the
lower-cased trimmed input and matches the pattern or contains the castling
substring. -/
theorem c9_lowercased_piece_moves :
    (∀ (c : Char) (rest : List Char),
      c ∈ (['n', 'q', 'r', 'k'] : List Char) →
      String.mk (c :: rest) ≠ "quit" →
      hasSubstr ['o', '-', 'o'] (c :: rest) = false →
      handleCore (String.mk (c :: rest)) = .invalidFormat) ∧
    (∀ (input m : String), handleCommand input = .forwarded m →
      m = jsToLowerStr (jsTrim input) ∧
      (movePatternTest m = true ∨
       hasSubstr ['o', '-', 'o'] m.data = true)) := by
  constructor
  · intro c rest hmem hq ho
    have hc : c = 'n' ∨ c = 'q' ∨ c = 'r' ∨ c = 'k' := by simpa using hmem
    have hcn : c ≠ 'c' := by rcases hc with rfl | rfl | rfl | rfl <;> decide
    have hca : c ≠ 'a' := by rcases hc with rfl | rfl | rfl | rfl <;> decide
    have hpt : movePatternTest (String.mk (c :: rest)) = false := by
      rcases hc with rfl | rfl | rfl | rfl <;>
        exact movePatternTest_head_false _ _ (by decide) (by decide)
          (by decide) (by decide)
    have h0 : (String.mk (c :: rest) == "") = false := by
      refine beq_eq_false_iff_ne.mpr ?_
      intro he
      have h := congrArg String.data he
      simp at h
    have hchat : (String.mk (c :: rest) == "chat") = false := by
      refine beq_eq_false_iff_ne.mpr ?_
      intro he
      have h := congrArg String.data he
      simp at h
      exact hcn h.1
    have hana : (String.mk (c :: rest) == "analyze") = false := by
      refine beq_eq_false_iff_ne.mpr ?_
      intro he
      have h := congrArg String.data he
      simp at h
      exact hca h.1
    have hqit : (String.mk (c :: rest) == "quit") = false :=
      beq_eq_false_iff_ne.mpr hq
    have hdata : (String.mk (c :: rest)).data = c :: rest := rfl
    unfold handleCore
    simp only [h0, hqit, hchat, hana, Bool.false_eq_true, if_false, hpt,
      hdata, ho, Bool.not_false, Bool.and_self, if_true]
  · intro input m h
    unfold handleCommand handleCore at h
    by_cases h1 : (jsToLowerStr (jsTrim input) == "") = true
    · rw [if_pos h1] at h; simp at h
    · rw [if_neg h1] at h
      by_cases h2 : (jsToLowerStr (jsTrim input) == "quit") = true
      · rw [if_pos h2] at h; simp at h
      · rw [if_neg h2] at h
        by_cases h3 : (jsToLowerStr (jsTrim input) == "chat") = true
        · rw [if_pos h3] at h; simp at h
        · rw [if_neg h3] at h
          by_cases h4 : (jsToLowerStr (jsTrim input) == "analyze") = true
          · rw [if_pos h4] at h; simp at h
          · rw [if_neg h4] at h
            by_cases h5 : (!movePatternTest (jsToLowerStr (jsTrim input)) &&
                !hasSubstr ['o', '-', 'o']
                  (jsToLowerStr (jsTrim input)).data) = true
            · rw [if_pos h5] at h; simp at h
            · rw [if_neg h5] at h
              injection h with hEq
              refine ⟨hEq.symm, ?_⟩
              cases hmp : movePatternTest (jsToLowerStr (jsTrim input)) with
              | true => exact Or.inl (hEq ▸ hmp)
              | false =>
                cases hos : hasSubstr ['o', '-', 'o']
                    (jsToLowerStr (jsTrim input)).data with
                | true => exact Or.inr (hEq ▸ hos)
                | false => exact absurd (by rw [hmp, hos]; rfl) h5

/-- C9 witness: the knight move nf3 (as lower-cased from Nf3) is rejected
with the invalid-move-format outcome. -/
theorem c9_lowercased_piece_moves_witness :
    handleCore (String.mk ['n', 'f', '3']) = .invalidFormat := by
  exact c9_lowercased_piece_moves.1 'n' ['f', '3'] (by decide) (by decide)
    (by decide)

/-- Helper: characters are equal exactly when their code points are. -/
theorem char_eq_iff_toNat (a b : Char) : a = b ↔ a.toNat = b.toNat := by
  constructor
  · intro h; rw [h]
  · intro h; exact Char.eq_of_val_eq (UInt32.ext h)

/-- Helper: the code point of a character built from a small code point. -/
theorem charToNat_ofNat (n : Nat) (h : n < 55296) :
    (Char.ofNat n).toNat = n := by
  unfold Char.ofNat
  rw [dif_pos (Or.inl h)]
  rfl

/-- Helper: the piece value only depends on the lower-cased character. -/
theorem pieceValue_congr (a b : Char) (h : jsToLower a = jsToLower b) :
    pieceValue a = pieceValue b := by
  unfold pieceValue
  rw [h]

/-- Helper: swapping the case of a character negates its material term. -/
theorem materialTerm_swapCase (c : Char) :
    materialTerm (swapCase c) = -materialTerm c := by
  by_cases hl : 97 ≤ c.toNat ∧ c.toNat ≤ 122
  · have hsw : swapCase c = Char.ofNat (c.toNat - 32) := by
      unfold swapCase; rw [if_pos hl]
    have hn : (Char.ofNat (c.toNat - 32)).toNat = c.toNat - 32 :=
      charToNat_ofNat _ (by omega)
    have h1 : jsToUpper (Char.ofNat (c.toNat - 32)) =
        Char.ofNat (c.toNat - 32) := by
      unfold jsToUpper; rw [if_neg (by rw [hn]; omega)]
    have h2 : jsToLower (Char.ofNat (c.toNat - 32)) = c := by
      unfold jsToLower
      rw [if_pos (by rw [hn]; omega), hn]
      rw [char_eq_iff_toNat, charToNat_ofNat _ (by omega)]
      omega
    have h3 : jsToLower c = c := by
      unfold jsToLower; rw [if_neg (by omega)]
    have h4 : jsToUpper c = Char.ofNat (c.toNat - 32) := by
      unfold jsToUpper; rw [if_pos hl]
    have h5 : Char.ofNat (c.toNat - 32) ≠ c := by
      rw [ne_eq, char_eq_iff_toNat, hn]
      omega
    have hval : pieceValue (Char.ofNat (c.toNat - 32)) = pieceValue c :=
      pieceValue_congr _ _ (by rw [h2, h3])
    rw [hsw]
    unfold materialTerm
    rw [h1, if_pos rfl, h4, if_neg h5, hval]
    ring
  · by_cases hu : 65 ≤ c.toNat ∧ c.toNat ≤ 90
    · have hsw : swapCase c = Char.ofNat (c.toNat + 32) := by
        unfold swapCase; rw [if_neg hl, if_pos hu]
      have hn : (Char.ofNat (c.toNat + 32)).toNat = c.toNat + 32 :=
        charToNat_ofNat _ (by omega)
      have h1 : jsToUpper (Char.ofNat (c.toNat + 32)) = c := by
        unfold jsToUpper
        rw [if_pos (by rw [hn]; omega), hn]
        rw [char_eq_iff_toNat, charToNat_ofNat _ (by omega)]
        omega
      have h5 : c ≠ Char.ofNat (c.toNat + 32) := by
        rw [ne_eq, char_eq_iff_toNat, hn]
        omega
      have hLu : jsToLower (Char.ofNat (c.toNat + 32)) =
          Char.ofNat (c.toNat + 32) := by
        unfold jsToLower; rw [if_neg (by rw [hn]; omega)]
      have hLc : jsToLower c = Char.ofNat (c.toNat + 32) := by
        unfold jsToLower; rw [if_pos hu]
      have hupc : jsToUpper c = c := by
        unfold jsToUpper; rw [if_neg (by omega)]
      have hval : pieceValue (Char.ofNat (c.toNat + 32)) = pieceValue c :=
        pieceValue_congr _ _ (by rw [hLu, hLc])
      rw [hsw]
      unfold materialTerm
      rw [h1, if_neg h5, hupc, if_pos rfl, hval]
    · have hsw : swapCase c = c := by
        unfold swapCase; rw [if_neg hl, if_neg hu]
      have hup : jsToUpper c = c := by
        unfold jsToUpper; rw [if_neg (by omega)]
      have hlo : jsToLower c = c := by
        unfold jsToLower; rw [if_neg (by omega)]
      have hp : c ≠ 'p' := by intro he; exact hl (by subst he; decide)
      have hnn : c ≠ 'n' := by intro he; exact hl (by subst he; decide)
      have hb : c ≠ 'b' := by intro he; exact hl (by subst he; decide)
      have hr : c ≠ 'r' := by intro he; exact hl (by subst he; decide)
      have hq : c ≠ 'q' := by intro he; exact hl (by subst he; decide)
      have hk : c ≠ 'k' := by intro he; exact hl (by subst he; decide)
      have hval0 : pieceValue c = 0 := by
        unfold pieceValue
        rw [hlo, if_neg hp, if_neg hnn, if_neg hb, if_neg hr, if_neg hq,
          if_neg hk]
      rw [hsw]
      unfold materialTerm
      rw [hup, if_pos rfl, hval0]
      ring

/-- Helper: case-swapping commutes with the space test. -/
theorem swapCase_bne_space (c : Char) :
    (swapCase c != ' ') = (c != ' ') := by
  by_cases hl : 97 ≤ c.toNat ∧ c.toNat ≤ 122
  · have hsw : swapCase c = Char.ofNat (c.toNat - 32) := by
      unfold swapCase; rw [if_pos hl]
    have hn : (Char.ofNat (c.toNat - 32)).toNat = c.toNat - 32 :=
      charToNat_ofNat _ (by omega)
    have h1 : swapCase c ≠ ' ' := by
      rw [hsw, ne_eq, char_eq_iff_toNat, hn]
      show ¬(c.toNat - 32 = 32)
      omega
    have h2 : c ≠ ' ' := by
      rw [ne_eq, char_eq_iff_toNat]
      show ¬(c.toNat = 32)
      omega
    rw [bne_iff_ne.mpr h1, bne_iff_ne.mpr h2]
  · by_cases hu : 65 ≤ c.toNat ∧ c.toNat ≤ 90
    · have hsw : swapCase c = Char.ofNat (c.toNat + 32) := by
        unfold swapCase; rw [if_neg hl, if_pos hu]
      have hn : (Char.ofNat (c.toNat + 32)).toNat = c.toNat + 32 :=
        charToNat_ofNat _ (by omega)
      have h1 : swapCase c ≠ ' ' := by
        rw [hsw, ne_eq, char_eq_iff_toNat, hn]
        show ¬(c.toNat + 32 = 32)
        omega
      have h2 : c ≠ ' ' := by
        rw [ne_eq, char_eq_iff_toNat]
        show ¬(c.toNat = 32)
        omega
      rw [bne_iff_ne.mpr h1, bne_iff_ne.mpr h2]
    · have hsw : swapCase c = c := by
        unfold swapCase; rw [if_neg hl, if_neg hu]
      rw [hsw]

/-- Helper: the board field of a case-swapped FEN is the case-swapped
board field. -/
theorem boardFieldChars_swapCaseStr (s : String) :
    boardFieldChars (swapCaseStr s) = (boardFieldChars s).map swapCase := by
  unfold boardFieldChars swapCaseStr
  rw [show (String.mk (s.data.map swapCase)).data = s.data.map swapCase
    from rfl]
  have hpred : ((fun c => c != ' ') ∘ swapCase) = (fun c : Char => c != ' ') := by
    funext c
    exact swapCase_bne_space c
  rw [List.takeWhile_map, hpred]

/-- Helper: the reduce of `calculateMaterial` is the sum of the
per-character terms. -/
theorem foldl_add_materialTerm (l : List Char) (a : Int) :
    l.foldl (fun sum c => sum + materialTerm c) a =
      a + (l.map materialTerm).sum := by
  induction l generalizing a with
  | nil => simp
  | cons c t ih =>
    simp only [List.foldl, List.map, List.sum_cons, ih]
    ring

/-- Helper: summing the negated terms negates the sum. -/
theorem sum_map_neg_materialTerm (l : List Char) :
    (l.map (fun c => -materialTerm c)).sum = -(l.map materialTerm).sum := by
  induction l with
  | nil => simp
  | cons c t ih =>
    simp [ih]
    ring

/-- Helper: each material term is the white part minus the black part. -/
theorem materialTerm_split (c : Char) :
    materialTerm c = (if jsToUpper c = c then pieceValue c else 0) -
      (if jsToUpper c = c then 0 else pieceValue c) := by
  unfold materialTerm
  by_cases h : jsToUpper c = c <;> simp [h]

/-- Helper: the term sum is white material minus black material. -/
theorem sum_materialTerm_split (l : List Char) :
    (l.map materialTerm).sum =
      (l.map (fun c => if jsToUpper c = c then pieceValue c else 0)).sum -
      (l.map (fun c => if jsToUpper c = c then 0 else pieceValue c)).sum := by
  induction l with
  | nil => simp
  | cons c t ih =>
    simp only [List.map, List.sum_cons, ih, materialTerm_split c]
    ring

/-- C10: `calculateMaterial` is antisymmetric under swapping the case of
every character of the FEN (only the board field matters, and case-swap
fixes the first space): the result negates; consequently it is zero for
every position with equal white and black material, in particular for the
standard starting position. -/
theorem c10_material_antisymmetry :
    (∀ fen : String,
      calculateMaterial (swapCaseStr fen) = -calculateMaterial fen) ∧
    (∀ fen : String, whiteMaterial fen = blackMaterial fen →
      calculateMaterial fen = 0) ∧
    calculateMaterial startFEN = 0 ∧
    whiteMaterial startFEN = blackMaterial startFEN := by
  have hsum : ∀ fen : String,
      calculateMaterial fen = ((boardFieldChars fen).map materialTerm).sum := by
    intro fen
    unfold calculateMaterial
    rw [foldl_add_materialTerm]
    simp
  refine ⟨?_, ?_, by decide, by decide⟩
  · intro fen
    rw [hsum, hsum, boardFieldChars_swapCaseStr, List.map_map]
    have hcmp : (materialTerm ∘ swapCase) = fun c => -materialTerm c := by
      funext c
      exact materialTerm_swapCase c
    rw [hcmp, sum_map_neg_materialTerm]
  · intro fen h
    rw [hsum, sum_materialTerm_split]
    unfold whiteMaterial blackMaterial at h
    omega

/-- C10 witness: the starting position has equal material on both sides and
the count evaluates to zero there. -/
theorem c10_material_antisymmetry_witness :
    calculateMaterial startFEN = 0 ∧
    calculateMaterial (swapCaseStr startFEN) = -calculateMaterial startFEN := by
  exact ⟨c10_material_antisymmetry.2.1 startFEN (by decide),
    c10_material_antisymmetry.1 startFEN⟩
